import Mathlib

/-!
Verification of the memory and prompt-assembly pipeline of the Dusha bot
(`src/main.py`).

The sqlite database is embedded as a `DB` structure: the `messages` table is a
list of `Msg` records kept in insertion order, with the `AUTOINCREMENT` id
supplied by `DB.nextId` (so ids are strictly increasing along the list — the
invariant `WF` below); the `facts` table is an association list from user id to
the facts text.  Under `WF`, the SQL `ORDER BY id DESC` on a per-user query is
`List.reverse` of the per-user sublist, and that is how the queries of
`get_recent_messages` and `trim_history` are embedded.

The two outbound completion calls are external: they are passed in as oracle
functions from the assembled message list to the returned content.  The main
conversational call (`ask_ai`) is modelled on its success path (its failure
propagates out of the turn and performs no further writes); the fact-extractor
call returns `Option String`, `none` standing for a raised exception, which the
caller of `update_facts_with_ai` swallows (`try ... except: pass`) — so
`handle_message` is a total function.  Timestamps (`datetime.utcnow`) are
likewise an input of `add_message`.

`handle_message` returns the resulting database together with a `Bool` that
records whether the fact extractor was invoked during the turn (the code has a
single call site guarded by `count % 6 == 0`, so a turn invokes it zero or one
times).
-/

namespace Dusha

/-- Python `str.strip()`: remove whitespace from both ends.  Embedded
directly over the character list so that it is structurally recursive and
kernel-computable (the library `String.trim` uses well-founded recursion
and does not reduce in the kernel). -/
def strip (s : String) : String :=
  ⟨((s.data.dropWhile Char.isWhitespace).reverse.dropWhile
      Char.isWhitespace).reverse⟩

/-- Auxiliary for `replaceFirst`: replace the first occurrence of `pat`
in a character list by `new`. -/
def replaceFirstChars (pat new : List Char) : List Char → List Char
  | [] => []
  | c :: rest =>
    if pat.isPrefixOf (c :: rest) then new ++ (c :: rest).drop pat.length
    else c :: replaceFirstChars pat new rest

/-- Python `s.replace(pat, new, 1)`: replace the first occurrence only. -/
def replaceFirst (s pat new : String) : String :=
  ⟨replaceFirstChars pat.data new.data s.data⟩

/-- A row of the `messages` table:
`id INTEGER PRIMARY KEY AUTOINCREMENT, user_id, role, content, ts`. -/
structure Msg where
  id : Nat
  user_id : Int
  role : String
  content : String
  ts : String
deriving DecidableEq

/-- The database: the `messages` table (insertion order, ids from `nextId`)
and the `facts` table (`user_id INTEGER PRIMARY KEY, facts TEXT`). -/
structure DB where
  messages : List Msg
  nextId : Nat
  facts : List (Int × String)
deriving DecidableEq

/-- Representation invariant of the embedding: message ids are strictly
increasing along the list (sqlite `AUTOINCREMENT`) and below `nextId`. -/
def WF (db : DB) : Prop :=
  (db.messages.map (fun m => m.id)).Pairwise (· < ·) ∧
    ∀ m ∈ db.messages, m.id < db.nextId

instance (db : DB) : Decidable (WF db) := by
  unfold WF; infer_instance

def SHORT_HISTORY_LIMIT : Nat := 20

def SYSTEM_PROMPT : String :=
  "\nТы — «Душа», тёплый, бережный, мудрый проводник и наставница.\nТон: спокойный, поддерживающий, человечный, без пафоса, без морализаторства.\nСтиль:\n- отвечай по делу, но с теплом;\n- если вопрос простой — отвечай коротко;\n- если человек переживает — сначала поддержи, потом предложи 1-2 шага;\n- НЕ дави, НЕ командуй, НЕ ставь диагнозов;\n- избегай \"я всего лишь ИИ\" — говори естественно;\n- можно использовать эмодзи умеренно (1–3), если это уместно.\nПамять:\n- учитывай «долгую память» (facts), но не вываливай её списком;\n- если не уверен(а) — уточни мягко.\nБезопасность:\n- не проси и не повторяй секретные ключи, пароли, токены.\n"

/-- `SELECT facts FROM facts WHERE user_id=?`; returns `""` when no row
exists (`row[0] if row else ""`). -/
def get_facts (db : DB) (user_id : Int) : String :=
  match db.facts.find? (fun p => p.1 == user_id) with
  | some p => p.2
  | none => ""

/-- `INSERT INTO facts(user_id, facts) VALUES(?, ?)
ON CONFLICT(user_id) DO UPDATE SET facts=excluded.facts`: upsert. -/
def set_facts (user_id : Int) (facts : String) (db : DB) : DB :=
  if db.facts.any (fun p => p.1 == user_id) then
    { db with facts := db.facts.map (fun p => if p.1 == user_id then (user_id, facts) else p) }
  else
    { db with facts := db.facts ++ [(user_id, facts)] }

/-- `INSERT INTO messages(user_id, role, content, ts) VALUES(?,?,?,?)`;
the timestamp (`datetime.utcnow().isoformat()`) is an input. -/
def add_message (user_id : Int) (role content ts : String) (db : DB) : DB :=
  { db with
    messages := db.messages ++ [⟨db.nextId, user_id, role, content, ts⟩],
    nextId := db.nextId + 1 }

/-- The rows of the `messages` table belonging to one user
(`WHERE user_id=?`), in insertion (ascending id) order. -/
def userMsgs (db : DB) (user_id : Int) : List Msg :=
  db.messages.filter (fun m => m.user_id == user_id)

/-- `SELECT role, content FROM messages WHERE user_id=? ORDER BY id DESC
LIMIT ?`, then `reversed(rows)` in Python.  Under `WF` the per-user rows are
already in ascending id order, so `ORDER BY id DESC` is `List.reverse`. -/
def get_recent_messages (user_id : Int) (limit : Nat) (db : DB) :
    List (String × String) :=
  (((userMsgs db user_id).reverse.take limit).reverse).map
    (fun m => (m.role, m.content))

/-- `DELETE FROM messages WHERE user_id=? AND id NOT IN
(SELECT id FROM messages WHERE user_id=? ORDER BY id DESC LIMIT ?)`:
a row survives iff it belongs to another user or its id is among the
`keep` most recent ids of this user. -/
def trim_history (user_id : Int) (keep : Nat) (db : DB) : DB :=
  { db with
    messages := db.messages.filter
      (fun m => !(m.user_id == user_id) ||
        (((userMsgs db user_id).reverse.take keep).map
          (fun m => m.id)).contains m.id) }

/-- `build_messages`: system instruction (plus the long-term-memory block when
the stripped facts are non-empty), then the recent history, then the new user
message. -/
def build_messages (user_id : Int) (user_text : String) (db : DB) :
    List (String × String) :=
  let facts := strip (get_facts db user_id)
  let memory_block :=
    if facts = "" then ""
    else "\n\nДолгая память (facts) о пользователе:\n" ++ facts ++ "\n"
  ("system", SYSTEM_PROMPT ++ memory_block) ::
    (get_recent_messages user_id SHORT_HISTORY_LIMIT db ++
      [("user", user_text)])

/-- `ask_ai`: one completion call on the assembled messages
(`temperature=0.7`), returning the stripped content of the first choice.
The completion endpoint is the oracle argument. -/
def ask_ai (completion : List (String × String) → String)
    (user_id : Int) (user_text : String) (db : DB) : String :=
  strip (completion (build_messages user_id user_text db))

/-- The extraction prompt of `update_facts_with_ai` (an f-string in the
source, reproduced by concatenation). -/
def extractorUserMessage (current_facts user_text assistant_text : String) :
    String :=
  "\nТы извлекатель фактов для долгой памяти.\nТвоя задача: обновить \"facts\" о пользователе кратко и полезно.\nПравила:\n- добавляй только устойчивые вещи: имя, предпочтения, цели, важные долгосрочные проекты;\n- НЕ добавляй секреты (ключи, пароли), номера карт, точные адреса;\n- НЕ добавляй одноразовые мелочи.\nФормат: короткие пункты, 1 строка = 1 факт.\n\nТекущие facts:\n"
    ++ current_facts
    ++ "\n\nНовые сообщения:\nПользователь: " ++ user_text
    ++ "\nАссистент: " ++ assistant_text
    ++ "\n\nВерни обновлённый список facts:\n"

/-- `update_facts_with_ai`: read the current facts, make the extraction
completion call (`temperature=0.2`) and overwrite the facts with the stripped
result.  The completion oracle answers `none` when the call raises; in that
case nothing is written and the exception (`none`) reaches the caller. -/
def update_facts_with_ai (completion : List (String × String) → Option String)
    (user_id : Int) (user_text assistant_text : String) (db : DB) :
    Option DB :=
  let current_facts := get_facts db user_id
  match completion
      [("system", "Ты аккуратный извлекатель фактов."),
       ("user", extractorUserMessage current_facts user_text assistant_text)] with
  | none => none
  | some content => some (set_facts user_id (strip content) db)

/-- `handle_message`, one conversational turn: persist the inbound message,
get the reply, persist it, trim the history, and — when the recent-history
count is a multiple of 6 — invoke the fact extractor, swallowing any
exception.  Returns the resulting database and whether the extractor was
invoked. -/
def handle_message (completion : List (String × String) → String)
    (extractor : List (String × String) → Option String)
    (user_id : Int) (raw_text ts1 ts2 : String) (db : DB) : DB × Bool :=
  let user_text := strip raw_text
  let db1 := add_message user_id "user" user_text ts1 db
  let assistant_text := ask_ai completion user_id user_text db1
  let db2 := add_message user_id "assistant" assistant_text ts2 db1
  let db3 := trim_history user_id SHORT_HISTORY_LIMIT db2
  let count := (get_recent_messages user_id SHORT_HISTORY_LIMIT db3).length
  if count % 6 == 0 then
    match update_facts_with_ai extractor user_id user_text assistant_text db3 with
    | none => (db3, true)
    | some db4 => (db4, true)
  else (db3, false)

/-- The `/remember` command handler: strip the command, ignore empty text,
otherwise append the text as a new line to the (stripped) current facts,
creating them when absent. -/
def remember (user_id : Int) (raw : String) (db : DB) : DB :=
  let text := strip (replaceFirst raw "/remember" "")
  if text = "" then db
  else
    let current := strip (get_facts db user_id)
    let updated := if current = "" then text
      else strip (current ++ "\n" ++ text)
    set_facts user_id updated db

/-- Repeated `add_message` calls for one user: each item is
(role, content, ts). -/
def addAll (user_id : Int) (items : List (String × String × String))
    (db : DB) : DB :=
  items.foldl (fun d it => add_message user_id it.1 it.2.1 it.2.2 d) db

/-! ### Frame lemmas: which fields each operation touches -/

theorem facts_add_message (u : Int) (r c ts : String) (db : DB) :
    (add_message u r c ts db).facts = db.facts := rfl

theorem facts_trim_history (u : Int) (k : Nat) (db : DB) :
    (trim_history u k db).facts = db.facts := rfl

theorem nextId_trim_history (u : Int) (k : Nat) (db : DB) :
    (trim_history u k db).nextId = db.nextId := rfl

theorem messages_set_facts (u : Int) (x : String) (db : DB) :
    (set_facts u x db).messages = db.messages := by
  unfold set_facts; split <;> rfl

theorem nextId_set_facts (u : Int) (x : String) (db : DB) :
    (set_facts u x db).nextId = db.nextId := by
  unfold set_facts; split <;> rfl

theorem userMsgs_set_facts (u v : Int) (x : String) (db : DB) :
    userMsgs (set_facts u x db) v = userMsgs db v := by
  unfold userMsgs; rw [messages_set_facts]

theorem get_facts_congr {db db' : DB} (h : db.facts = db'.facts) (u : Int) :
    get_facts db u = get_facts db' u := by
  unfold get_facts; rw [h]

theorem userMsgs_add_message_self (u : Int) (r c ts : String) (db : DB) :
    userMsgs (add_message u r c ts db) u
      = userMsgs db u ++ [⟨db.nextId, u, r, c, ts⟩] := by
  unfold userMsgs add_message
  rw [List.filter_append]
  simp

/-! ### Fact Store: get/set -/

theorem get_facts_set_facts_self (u : Int) (x : String) (db : DB) :
    get_facts (set_facts u x db) u = x := by
  by_cases h : (db.facts.any fun p => p.1 == u) = true
  · unfold set_facts
    rw [if_pos h]
    unfold get_facts
    rw [List.find?_map]
    have hcomp : ((fun p : Int × String => p.1 == u) ∘
        (fun p : Int × String => if p.1 == u then (u, x) else p))
        = fun p : Int × String => p.1 == u := by
      funext p
      by_cases hp : p.1 = u <;> simp [hp]
    rw [hcomp]
    obtain ⟨p, hpmem, hpu⟩ := List.any_eq_true.mp h
    cases hf : db.facts.find? (fun p => p.1 == u) with
    | none => exact absurd hpu (List.find?_eq_none.mp hf p hpmem)
    | some q =>
      have hq : q.1 = u := by simpa using List.find?_some hf
      simp [hq]
  · unfold set_facts
    rw [if_neg h]
    unfold get_facts
    rw [List.find?_append]
    have h1 : db.facts.find? (fun p => p.1 == u) = none := by
      rw [List.find?_eq_none]
      intro p hp hpu
      exact h (List.any_eq_true.mpr ⟨p, hp, hpu⟩)
    simp [h1]

theorem set_facts_idem (u : Int) (x : String) (db : DB) :
    set_facts u x (set_facts u x db) = set_facts u x db := by
  unfold set_facts
  split
  next h =>
    have h2 : (db.facts.map
        (fun p => if p.1 == u then (u, x) else p)).any
          (fun p => p.1 == u) = true := by
      obtain ⟨p, hpmem, hpu⟩ := List.any_eq_true.mp h
      refine List.any_eq_true.mpr
        ⟨(u, x), List.mem_map.mpr ⟨p, hpmem, by simp [hpu]⟩, by simp⟩
    simp only [h2, if_true]
    congr 1
    rw [List.map_map]
    refine List.map_eq_map_iff.mpr (fun p _ => ?_)
    by_cases hp : p.1 = u <;> simp [hp]
  next h =>
    have h2 : ((db.facts ++ [(u, x)]).any (fun p => p.1 == u)) = true := by
      refine List.any_eq_true.mpr ⟨(u, x), by simp, by simp⟩
    simp only [h2, if_true]
    congr 1
    rw [List.map_append]
    have h3 : db.facts.map (fun p => if p.1 == u then (u, x) else p)
        = db.facts := by
      conv_rhs => rw [← List.map_id db.facts]
      refine List.map_eq_map_iff.mpr (fun p hp => ?_)
      have hne : ¬(p.1 == u) = true := by
        intro hpu
        exact h (List.any_eq_true.mpr ⟨p, hp, hpu⟩)
      simp [hne]
    rw [h3]
    simp

/-! ### History Store: trim -/

theorem eq_drop_append_take_reverse (l : List Msg) (k : Nat) :
    l = (l.reverse.drop k).reverse ++ (l.reverse.take k).reverse := by
  conv_lhs => rw [← List.reverse_reverse l]
  conv_lhs => rw [← List.take_append_drop k l.reverse]
  rw [List.reverse_append]

theorem filter_mem_suffix (T S : List Msg)
    (hnd : ((T ++ S).map (fun m => m.id)).Nodup) (p : Msg → Bool)
    (hp : ∀ m : Msg, p m = true ↔ m.id ∈ S.map (fun m => m.id)) :
    (T ++ S).filter p = S := by
  obtain ⟨-, -, hdisj⟩ := List.nodup_append.mp
    (by rwa [List.map_append] at hnd)
  rw [List.filter_append]
  have h1 : T.filter p = [] := List.filter_eq_nil_iff.mpr (fun m hm hc =>
    hdisj (List.mem_map.mpr ⟨m, hm, rfl⟩) ((hp m).mp hc))
  have h2 : S.filter p = S := List.filter_eq_self.mpr (fun m hm =>
    (hp m).mpr (List.mem_map.mpr ⟨m, hm, rfl⟩))
  rw [h1, h2, List.nil_append]

theorem filter_keep_recent (l : List Msg) (k : Nat)
    (hnd : (l.map (fun m => m.id)).Nodup) :
    l.filter
        (fun m => ((l.reverse.take k).map (fun m => m.id)).contains m.id)
      = (l.reverse.take k).reverse := by
  have key := filter_mem_suffix ((l.reverse.drop k).reverse)
      ((l.reverse.take k).reverse)
      (by rw [← eq_drop_append_take_reverse]; exact hnd)
      (fun m => ((l.reverse.take k).map (fun m => m.id)).contains m.id)
      (by
        intro m
        rw [List.map_reverse, List.mem_reverse]
        exact List.elem_iff)
  rwa [← eq_drop_append_take_reverse] at key

theorem userMsgs_trim_history_self (u : Int) (k : Nat) (db : DB)
    (h : WF db) :
    userMsgs (trim_history u k db) u
      = ((userMsgs db u).reverse.take k).reverse := by
  have hnd : ((userMsgs db u).map (fun m => m.id)).Nodup :=
    List.Nodup.sublist (List.Sublist.map _ (List.filter_sublist _))
      (h.1.imp (fun hab => Nat.ne_of_lt hab))
  show (db.messages.filter
      (fun m => !(m.user_id == u) ||
        (((userMsgs db u).reverse.take k).map
          (fun m => m.id)).contains m.id)).filter
      (fun m => m.user_id == u) = _
  rw [List.filter_filter]
  have hstep : db.messages.filter
      (fun m => (m.user_id == u) &&
        (!(m.user_id == u) ||
          (((userMsgs db u).reverse.take k).map
            (fun m => m.id)).contains m.id))
      = db.messages.filter
        (fun m =>
          (((userMsgs db u).reverse.take k).map
            (fun m => m.id)).contains m.id && (m.user_id == u)) := by
    refine List.filter_congr (fun m _ => ?_)
    cases hmu : (m.user_id == u) <;> simp [hmu]
  rw [hstep, ← List.filter_filter]
  exact filter_keep_recent (userMsgs db u) k hnd

theorem trim_history_no_op (u : Int) (k : Nat) (db : DB)
    (h : (userMsgs db u).length ≤ k) : trim_history u k db = db := by
  have hfull : db.messages.filter
      (fun m => !(m.user_id == u) ||
        (((userMsgs db u).reverse.take k).map
          (fun m => m.id)).contains m.id) = db.messages := by
    refine List.filter_eq_self.mpr (fun m hm => ?_)
    cases hmu : (m.user_id == u) with
    | false => simp
    | true =>
      have hmem : m ∈ userMsgs db u := List.mem_filter.mpr ⟨hm, hmu⟩
      have htake : (userMsgs db u).reverse.take k
          = (userMsgs db u).reverse :=
        List.take_of_length_le (by rw [List.length_reverse]; exact h)
      rw [htake]
      have hid : m.id ∈ ((userMsgs db u).reverse).map (fun m => m.id) :=
        List.mem_map.mpr ⟨m, List.mem_reverse.mpr hmem, rfl⟩
      simp only [Bool.not_true, Bool.false_or]
      exact List.elem_iff.mpr hid
  unfold trim_history
  rw [hfull]

theorem trim_keeps_largest (u : Int) (k : Nat) (db : DB) (h : WF db) :
    ∀ m ∈ userMsgs db u, m ∉ userMsgs (trim_history u k db) u →
      ∀ m' ∈ userMsgs (trim_history u k db) u, m.id < m'.id := by
  intro m hm hnotin m' hm'
  rw [userMsgs_trim_history_self u k db h] at hnotin hm'
  have hdecomp := eq_drop_append_take_reverse (userMsgs db u) k
  have hpl : ((userMsgs db u).map (fun m => m.id)).Pairwise (· < ·) :=
    List.Pairwise.sublist (List.Sublist.map _ (List.filter_sublist _)) h.1
  rw [hdecomp, List.map_append, List.pairwise_append] at hpl
  obtain ⟨-, -, hcross⟩ := hpl
  have hmT : m ∈ ((userMsgs db u).reverse.drop k).reverse := by
    have hmem := hm
    rw [hdecomp, List.mem_append] at hmem
    rcases hmem with hT | hS
    · exact hT
    · exact absurd hS hnotin
  have hA : m.id ∈ (((userMsgs db u).reverse.drop k).reverse).map
      (fun m => m.id) := List.mem_map.mpr ⟨m, hmT, rfl⟩
  have hB : m'.id ∈ (((userMsgs db u).reverse.take k).reverse).map
      (fun m => m.id) := List.mem_map.mpr ⟨m', hm', rfl⟩
  exact hcross m.id hA m'.id hB

/-! ### Well-formedness preservation -/

theorem WF_add_message (u : Int) (r c ts : String) (db : DB) (h : WF db) :
    WF (add_message u r c ts db) := by
  obtain ⟨h1, h2⟩ := h
  constructor
  · show ((db.messages ++ [(⟨db.nextId, u, r, c, ts⟩ : Msg)]).map
      (fun m => m.id)).Pairwise (· < ·)
    rw [List.map_append, List.pairwise_append]
    refine ⟨h1, List.pairwise_singleton _ _, ?_⟩
    intro a ha b hb
    simp only [List.map_cons, List.map_nil, List.mem_singleton] at hb
    subst hb
    obtain ⟨m, hm, rfl⟩ := List.mem_map.mp ha
    exact h2 m hm
  · intro m hm
    have hm' : m ∈ db.messages ++ [(⟨db.nextId, u, r, c, ts⟩ : Msg)] := hm
    show m.id < db.nextId + 1
    rcases List.mem_append.mp hm' with hmem | hmem
    · exact Nat.lt_succ_of_lt (h2 m hmem)
    · have : m = (⟨db.nextId, u, r, c, ts⟩ : Msg) := by simpa using hmem
      rw [this]
      exact Nat.lt_succ_self _

theorem WF_trim_history (u : Int) (k : Nat) (db : DB) (h : WF db) :
    WF (trim_history u k db) := by
  obtain ⟨h1, h2⟩ := h
  constructor
  · exact List.Pairwise.sublist (List.Sublist.map _ (List.filter_sublist _)) h1
  · intro m hm
    exact h2 m (List.mem_of_mem_filter hm)

theorem WF_set_facts (u : Int) (x : String) (db : DB) (h : WF db) :
    WF (set_facts u x db) := by
  obtain ⟨h1, h2⟩ := h
  constructor
  · rw [messages_set_facts]
    exact h1
  · intro m hm
    rw [messages_set_facts] at hm
    rw [nextId_set_facts]
    exact h2 m hm

/-! ### History Store: retrieval -/

theorem length_get_recent_messages (u : Int) (n : Nat) (db : DB) :
    (get_recent_messages u n db).length = min n (userMsgs db u).length := by
  unfold get_recent_messages
  rw [List.length_map, List.length_reverse, List.length_take,
    List.length_reverse]

theorem get_recent_messages_eq_drop (u : Int) (n : Nat) (db : DB) :
    get_recent_messages u n db
      = ((userMsgs db u).drop ((userMsgs db u).length - n)).map
          (fun m => (m.role, m.content)) := by
  unfold get_recent_messages
  rw [List.take_reverse, List.reverse_reverse]

theorem get_recent_messages_all (u : Int) (n : Nat) (db : DB)
    (h : (userMsgs db u).length ≤ n) :
    get_recent_messages u n db
      = (userMsgs db u).map (fun m => (m.role, m.content)) := by
  rw [get_recent_messages_eq_drop, Nat.sub_eq_zero_of_le h, List.drop_zero]

theorem userMsgs_addAll (u : Int) (items : List (String × String × String))
    (db : DB) :
    (userMsgs (addAll u items db) u).map (fun m => (m.role, m.content))
      = (userMsgs db u).map (fun m => (m.role, m.content))
        ++ items.map (fun it => (it.1, it.2.1)) := by
  induction items generalizing db with
  | nil => simp [addAll]
  | cons it rest ih =>
    show (userMsgs (addAll u rest (add_message u it.1 it.2.1 it.2.2 db)) u).map
        (fun m => (m.role, m.content)) = _
    rw [ih, userMsgs_add_message_self]
    simp

/-! ### Fact Extractor call -/

theorem update_facts_with_ai_some
    (e : List (String × String) → Option String) (u : Int)
    (ut at_ : String) (db db' : DB)
    (h : update_facts_with_ai e u ut at_ db = some db') :
    (∀ v, userMsgs db' v = userMsgs db v) ∧ (WF db → WF db') := by
  simp only [update_facts_with_ai] at h
  split at h
  · exact absurd h (by simp)
  · injection h with h'
    subst h'
    exact ⟨fun v => userMsgs_set_facts _ _ _ _, WF_set_facts _ _ _⟩

/-! ### Whitespace stripping -/

theorem length_dropWhile_le' {α : Type} (p : α → Bool) (l : List α) :
    (l.dropWhile p).length ≤ l.length := by
  induction l with
  | nil => exact Nat.le_refl _
  | cons c t ih =>
    rw [List.dropWhile_cons]
    by_cases hc : p c = true
    · rw [if_pos hc]
      exact Nat.le_succ_of_le ih
    · rw [if_neg hc]

theorem dropWhile_idem {α : Type} (p : α → Bool) (l : List α) :
    (l.dropWhile p).dropWhile p = l.dropWhile p := by
  induction l with
  | nil => rfl
  | cons c t ih =>
    rw [List.dropWhile_cons]
    by_cases hc : p c = true
    · rw [if_pos hc]
      exact ih
    · rw [if_neg hc, List.dropWhile_cons, if_neg hc]

theorem length_dropWhile_eq {α : Type} (p : α → Bool) (l : List α)
    (h : (l.dropWhile p).length = l.length) : l.dropWhile p = l := by
  induction l with
  | nil => rfl
  | cons c t ih =>
    rw [List.dropWhile_cons] at h ⊢
    by_cases hc : p c = true
    · exfalso
      rw [if_pos hc] at h
      have hle := length_dropWhile_le' p t
      simp only [List.length_cons] at h
      omega
    · rw [if_neg hc]

theorem dropWhile_head_not {α : Type} (p : α → Bool) (l : List α)
    (c : α) (t : List α) (h : l.dropWhile p = c :: t) : p c = false := by
  induction l with
  | nil => cases h
  | cons a r ih =>
    rw [List.dropWhile_cons] at h
    by_cases ha : p a = true
    · rw [if_pos ha] at h
      exact ih h
    · rw [if_neg ha] at h
      obtain rfl : a = c := (List.cons.injEq _ _ _ _ ▸ h).1
      exact Bool.eq_false_iff.mpr ha

theorem dropWhile_eq_self_of_head {α : Type} (p : α → Bool) (l : List α)
    (h : ∀ c, l.head? = some c → p c = false) : l.dropWhile p = l := by
  cases l with
  | nil => rfl
  | cons c t =>
    have hc := h c rfl
    rw [List.dropWhile_cons, if_neg (by simp [hc])]

theorem head_not_of_dropWhile_eq {α : Type} (p : α → Bool) (l : List α)
    (h : l.dropWhile p = l) : ∀ c, l.head? = some c → p c = false := by
  intro c hc
  cases l with
  | nil => cases hc
  | cons a t =>
    obtain rfl : a = c := by simpa using hc
    exact dropWhile_head_not p (a :: t) a t h

theorem dropWhile_append_of_fixed {α : Type} (p : α → Bool)
    (l l' : List α) (hl : l.dropWhile p = l) (hne : l ≠ []) :
    (l ++ l').dropWhile p = l ++ l' := by
  cases l with
  | nil => exact absurd rfl hne
  | cons c t =>
    have hc : p c = false := dropWhile_head_not p (c :: t) c t hl
    rw [List.cons_append, List.dropWhile_cons, if_neg (by simp [hc])]

theorem getLast?_dropWhile {α : Type} (p : α → Bool) (l : List α)
    (h : l.dropWhile p ≠ []) : (l.dropWhile p).getLast? = l.getLast? := by
  induction l with
  | nil => exact absurd rfl h
  | cons c t ih =>
    rw [List.dropWhile_cons]
    by_cases hc : p c = true
    · rw [if_pos hc]
      rw [List.dropWhile_cons, if_pos hc] at h
      rw [ih h]
      have ht : t ≠ [] := by
        rintro rfl
        exact h rfl
      cases t with
      | nil => exact absurd rfl ht
      | cons x t' => rw [List.getLast?_cons_cons]
    · rw [if_neg hc]

theorem strip_idem (s : String) : strip (strip s) = strip s := by
  apply String.ext
  show (((((s.data.dropWhile Char.isWhitespace).reverse.dropWhile
        Char.isWhitespace).reverse).dropWhile Char.isWhitespace).reverse.dropWhile
        Char.isWhitespace).reverse
      = ((s.data.dropWhile Char.isWhitespace).reverse.dropWhile
        Char.isWhitespace).reverse
  have step1 : (((s.data.dropWhile Char.isWhitespace).reverse.dropWhile
        Char.isWhitespace).reverse).dropWhile Char.isWhitespace
      = ((s.data.dropWhile Char.isWhitespace).reverse.dropWhile
        Char.isWhitespace).reverse := by
    apply dropWhile_eq_self_of_head
    intro c hc
    rw [List.head?_reverse] at hc
    have hCne : (s.data.dropWhile Char.isWhitespace).reverse.dropWhile
        Char.isWhitespace ≠ [] := by
      intro h0
      rw [h0] at hc
      cases hc
    rw [getLast?_dropWhile _ _ hCne, List.getLast?_reverse] at hc
    exact head_not_of_dropWhile_eq _ _ (dropWhile_idem _ s.data) c hc
  rw [step1, List.reverse_reverse,
    dropWhile_idem Char.isWhitespace
      ((s.data.dropWhile Char.isWhitespace).reverse)]

theorem strip_eq_self_parts (s : String) (h : strip s = s) :
    s.data.dropWhile Char.isWhitespace = s.data
    ∧ s.data.reverse.dropWhile Char.isWhitespace = s.data.reverse := by
  have hd : ((s.data.dropWhile Char.isWhitespace).reverse.dropWhile
      Char.isWhitespace).reverse = s.data := congrArg String.data h
  have h1 : (s.data.dropWhile Char.isWhitespace).length = s.data.length := by
    have e1 := length_dropWhile_le' Char.isWhitespace s.data
    have e2 := length_dropWhile_le' Char.isWhitespace
      (s.data.dropWhile Char.isWhitespace).reverse
    have e3 := congrArg List.length hd
    rw [List.length_reverse] at e2 e3
    omega
  have hB : s.data.dropWhile Char.isWhitespace = s.data :=
    length_dropWhile_eq _ _ h1
  refine ⟨hB, ?_⟩
  rw [hB] at hd
  have h2 : (s.data.reverse.dropWhile Char.isWhitespace).length
      = s.data.reverse.length := by
    have e3 := congrArg List.length hd
    rw [List.length_reverse] at e3
    rw [List.length_reverse, e3]
  exact length_dropWhile_eq _ _ h2

theorem data_ne_nil_of_ne_empty {s : String} (h : s ≠ "") : s.data ≠ [] :=
  fun h0 => h (String.ext h0)

theorem strip_append_newline (a b : String)
    (ha : strip a = a) (hb : strip b = b) (ha' : a ≠ "") (hb' : b ≠ "") :
    strip (a ++ "\n" ++ b) = a ++ "\n" ++ b := by
  obtain ⟨haf, -⟩ := strip_eq_self_parts a ha
  obtain ⟨-, hbb⟩ := strip_eq_self_parts b hb
  have hAne : a.data ≠ [] := data_ne_nil_of_ne_empty ha'
  have hBne : b.data.reverse ≠ [] := by
    simpa [List.reverse_eq_nil_iff] using data_ne_nil_of_ne_empty hb'
  apply String.ext
  have hD : (a ++ "\n" ++ b).data = (a.data ++ ['\n']) ++ b.data := by
    rw [String.data_append, String.data_append]
  show (((a ++ "\n" ++ b).data.dropWhile Char.isWhitespace).reverse.dropWhile
      Char.isWhitespace).reverse = (a ++ "\n" ++ b).data
  rw [hD]
  have hfront : ((a.data ++ ['\n']) ++ b.data).dropWhile Char.isWhitespace
      = (a.data ++ ['\n']) ++ b.data := by
    rw [List.append_assoc]
    exact dropWhile_append_of_fixed _ a.data _ haf hAne
  rw [hfront]
  have hrev : ((a.data ++ ['\n']) ++ b.data).reverse
      = b.data.reverse ++ ('\n' :: a.data.reverse) := by
    rw [List.reverse_append, List.reverse_append]
    rfl
  rw [hrev]
  have hback : (b.data.reverse ++ ('\n' :: a.data.reverse)).dropWhile
      Char.isWhitespace = b.data.reverse ++ ('\n' :: a.data.reverse) :=
    dropWhile_append_of_fixed _ _ _ hbb hBne
  rw [hback, ← hrev, List.reverse_reverse]

/-! ### The conversational turn -/

theorem handle_message_spec (c : List (String × String) → String)
    (e : List (String × String) → Option String)
    (u : Int) (raw ts1 ts2 : String) (db : DB) (h : WF db) :
    (userMsgs (handle_message c e u raw ts1 ts2 db).1 u).length
        = min SHORT_HISTORY_LIMIT ((userMsgs db u).length + 2)
      ∧ (handle_message c e u raw ts1 ts2 db).2
        = (min SHORT_HISTORY_LIMIT ((userMsgs db u).length + 2) % 6 == 0)
      ∧ WF (handle_message c e u raw ts1 ts2 db).1 := by
  simp only [handle_message]
  set db1 := add_message u "user" (strip raw) ts1 db with hdb1
  set atext := ask_ai c u (strip raw) db1 with hatext
  set db2 := add_message u "assistant" atext ts2 db1 with hdb2
  set db3 := trim_history u SHORT_HISTORY_LIMIT db2 with hdb3
  have hWF2 : WF db2 := by
    rw [hdb2, hdb1]
    exact WF_add_message _ _ _ _ _ (WF_add_message _ _ _ _ _ h)
  have hlen2 : (userMsgs db2 u).length = (userMsgs db u).length + 2 := by
    rw [hdb2, userMsgs_add_message_self, hdb1, userMsgs_add_message_self]
    simp
  have hlen3 : (userMsgs db3 u).length
      = min SHORT_HISTORY_LIMIT ((userMsgs db u).length + 2) := by
    rw [hdb3, userMsgs_trim_history_self _ _ _ hWF2]
    rw [List.length_reverse, List.length_take, List.length_reverse, hlen2]
  have hWF3 : WF db3 := by
    rw [hdb3]
    exact WF_trim_history _ _ _ hWF2
  have hcount : (get_recent_messages u SHORT_HISTORY_LIMIT db3).length
      = min SHORT_HISTORY_LIMIT ((userMsgs db u).length + 2) := by
    rw [length_get_recent_messages, hlen3]
    omega
  rw [hcount]
  refine ⟨?_, ?_, ?_⟩
  · split
    · split
      next heq => exact hlen3
      next db4 heq =>
        rw [(update_facts_with_ai_some _ _ _ _ _ _ heq).1 u]
        exact hlen3
    · exact hlen3
  · split
    next hc =>
      rw [hc]
      split <;> rfl
    next hc =>
      have hc' : (min SHORT_HISTORY_LIMIT ((userMsgs db u).length + 2) % 6
          == 0) = false := by
        cases hb : (min SHORT_HISTORY_LIMIT ((userMsgs db u).length + 2) % 6
            == 0) with
        | false => rfl
        | true => exact absurd hb hc
      rw [hc']
  · split
    · split
      next heq => exact hWF3
      next db4 heq =>
        exact (update_facts_with_ai_some _ _ _ _ _ _ heq).2 hWF3
    · exact hWF3

/-! ### Small string helpers -/

theorem string_append_left_cancel {a b c : String} (h : a ++ b = a ++ c) :
    b = c := by
  have hd := congrArg String.data h
  rw [String.data_append, String.data_append] at hd
  exact String.ext (List.append_cancel_left hd)

/-- Unfolding of `remember` (pure let-reduction of the definition). -/
theorem remember_eval (u : Int) (raw : String) (db : DB) :
    remember u raw db
      = (if strip (replaceFirst raw "/remember" "") = "" then db
         else set_facts u
           (if strip (get_facts db u) = ""
            then strip (replaceFirst raw "/remember" "")
            else strip (strip (get_facts db u) ++ "\n"
              ++ strip (replaceFirst raw "/remember" ""))) db) := rfl

/-! ### Concrete example databases (used by the witnesses) -/

/-- A message row with fixed content and timestamp. -/
def exMsg (i : Nat) (u : Int) (r : String) : Msg := ⟨i, u, r, "m", "t"⟩

/-- Empty store. -/
def dbEmpty : DB := ⟨[], 1, []⟩

/-- User 1 with exactly 4 stored messages. -/
def dbFour : DB :=
  ⟨[exMsg 1 1 "user", exMsg 2 1 "assistant", exMsg 3 1 "user",
    exMsg 4 1 "assistant"], 5, []⟩

/-- User 1 with exactly 6 stored messages. -/
def dbSix : DB :=
  ⟨[exMsg 1 1 "user", exMsg 2 1 "assistant", exMsg 3 1 "user",
    exMsg 4 1 "assistant", exMsg 5 1 "user", exMsg 6 1 "assistant"], 7, []⟩

/-- Users 1 and 2 with interleaved messages and stored facts. -/
def dbMix : DB :=
  ⟨[exMsg 1 1 "user", exMsg 2 2 "user", exMsg 3 1 "assistant",
    exMsg 4 2 "assistant", exMsg 5 1 "user"], 6,
   [(1, "любит кофе"), (2, "играет гитару")]⟩

/-- User 1 with 4 stored messages and a facts row, so that the next turn
reaches 6 recent records and invokes the extractor. -/
def dbFourFacts : DB :=
  ⟨[exMsg 1 1 "user", exMsg 2 1 "assistant", exMsg 3 1 "user",
    exMsg 4 1 "assistant"], 5, [(1, "любит кофе")]⟩

/-! ### The claims -/

/-- C4: after `trim_history U K` the store holds exactly
`min K total` message records for `U`: the suffix of most recently added
ones, which (under `WF`) carry the `K` largest ids; the call is a no-op
when `U` has at most `K` records. -/
theorem trim_history_spec (u : Int) (k : Nat) (db : DB) (h : WF db) :
    userMsgs (trim_history u k db) u
        = ((userMsgs db u).reverse.take k).reverse
    ∧ (userMsgs (trim_history u k db) u).length
        = min k (userMsgs db u).length
    ∧ (∀ m ∈ userMsgs db u, m ∉ userMsgs (trim_history u k db) u →
        ∀ m' ∈ userMsgs (trim_history u k db) u, m.id < m'.id)
    ∧ ((userMsgs db u).length ≤ k → trim_history u k db = db) := by
  refine ⟨userMsgs_trim_history_self u k db h, ?_,
    trim_keeps_largest u k db h, trim_history_no_op u k db⟩
  rw [userMsgs_trim_history_self u k db h, List.length_reverse,
    List.length_take, List.length_reverse]

theorem trim_history_spec_witness :
    WF dbMix
    ∧ (userMsgs (trim_history 1 2 dbMix) 1
        = ((userMsgs dbMix 1).reverse.take 2).reverse
    ∧ (userMsgs (trim_history 1 2 dbMix) 1).length
        = min 2 (userMsgs dbMix 1).length
    ∧ (∀ m ∈ userMsgs dbMix 1, m ∉ userMsgs (trim_history 1 2 dbMix) 1 →
        ∀ m' ∈ userMsgs (trim_history 1 2 dbMix) 1, m.id < m'.id)
    ∧ ((userMsgs dbMix 1).length ≤ 2 → trim_history 1 2 dbMix = dbMix)) :=
  ⟨by decide, trim_history_spec 1 2 dbMix (by decide)⟩

/-- C8: `trim_history` is idempotent — the second call deletes nothing. -/
theorem trim_history_idem (u : Int) (k : Nat) (db : DB) (h : WF db) :
    trim_history u k (trim_history u k db) = trim_history u k db := by
  apply trim_history_no_op
  rw [userMsgs_trim_history_self u k db h, List.length_reverse,
    List.length_take, List.length_reverse]
  omega

theorem trim_history_idem_witness :
    WF dbMix
    ∧ trim_history 1 2 (trim_history 1 2 dbMix) = trim_history 1 2 dbMix :=
  ⟨by decide, trim_history_idem 1 2 dbMix (by decide)⟩

/-- C9: `get_facts` right after `set_facts U X` returns `X`, whether or
not a facts row existed before, and `set_facts` is idempotent. -/
theorem set_get_facts_spec (u : Int) (x : String) (db : DB) :
    get_facts (set_facts u x db) u = x
    ∧ set_facts u x (set_facts u x db) = set_facts u x db :=
  ⟨get_facts_set_facts_self u x db, set_facts_idem u x db⟩

/-- C10: `trim_history U K` leaves the messages of every other user, the
facts table, and the id counter unchanged. -/
theorem trim_history_frame (u v : Int) (k : Nat) (db : DB) (h : u ≠ v) :
    userMsgs (trim_history u k db) v = userMsgs db v
    ∧ (trim_history u k db).facts = db.facts
    ∧ (trim_history u k db).nextId = db.nextId := by
  refine ⟨?_, rfl, rfl⟩
  show (db.messages.filter
      (fun m => !(m.user_id == u) ||
        (((userMsgs db u).reverse.take k).map
          (fun m => m.id)).contains m.id)).filter
      (fun m => m.user_id == v) = _
  rw [List.filter_filter]
  refine List.filter_congr (fun m _ => ?_)
  by_cases hmv : m.user_id = v
  · have hmu : (m.user_id == u) = false :=
      beq_eq_false_iff_ne.mpr (by rw [hmv]; exact fun he => h he.symm)
    simp [hmv, hmu]
    exact Or.inl (fun he => h he.symm)
  · have hv : (m.user_id == v) = false := beq_eq_false_iff_ne.mpr hmv
    simp [hv]

theorem trim_history_frame_witness :
    (1 : Int) ≠ 2
    ∧ (userMsgs (trim_history 1 1 dbMix) 2 = userMsgs dbMix 2
    ∧ (trim_history 1 1 dbMix).facts = dbMix.facts
    ∧ (trim_history 1 1 dbMix).nextId = dbMix.nextId) :=
  ⟨by decide, trim_history_frame 1 2 1 dbMix (by decide)⟩

/-- C5: `get_recent_messages U N` returns the up-to-`N` most recent
records of `U` oldest-first (the suffix of the insertion-ordered per-user
log, whose ids are ascending under `WF`); all of them if fewer than `N`
exist; and after exactly `N` `add_message` calls starting from no records
it returns those `N` records in insertion order. -/
theorem get_recent_messages_spec (u : Int) (n : Nat) (db : DB) :
    (get_recent_messages u n db).length = min n (userMsgs db u).length
    ∧ get_recent_messages u n db
        = ((userMsgs db u).drop ((userMsgs db u).length - n)).map
            (fun m => (m.role, m.content))
    ∧ ((userMsgs db u).length ≤ n →
        get_recent_messages u n db
          = (userMsgs db u).map (fun m => (m.role, m.content)))
    ∧ (∀ (items : List (String × String × String)) (db' : DB),
        userMsgs db' u = [] →
          get_recent_messages u items.length (addAll u items db')
            = items.map (fun it => (it.1, it.2.1)))
    ∧ (WF db → ((userMsgs db u).map (fun m => m.id)).Pairwise (· < ·)) := by
  refine ⟨length_get_recent_messages u n db,
    get_recent_messages_eq_drop u n db,
    get_recent_messages_all u n db, ?_, ?_⟩
  · intro items db' h0
    have hmap := userMsgs_addAll u items db'
    rw [h0] at hmap
    simp only [List.map_nil, List.nil_append] at hmap
    have hlen : (userMsgs (addAll u items db') u).length = items.length := by
      have hl := congrArg List.length hmap
      simpa using hl
    rw [get_recent_messages_all u items.length _ (le_of_eq hlen), hmap]
  · intro hWF
    exact List.Pairwise.sublist (List.Sublist.map _ (List.filter_sublist _))
      hWF.1

theorem get_recent_messages_spec_witness :
    userMsgs dbEmpty 1 = []
    ∧ get_recent_messages 1 2
        (addAll 1 [("user", "a", "t1"), ("assistant", "b", "t2")] dbEmpty)
      = [("user", "a"), ("assistant", "b")] :=
  ⟨by decide,
    (get_recent_messages_spec 1 2 dbEmpty).2.2.2.1
      [("user", "a", "t1"), ("assistant", "b", "t2")] dbEmpty (by decide)⟩

/-- C6: the long-term-memory block appears in the system message of
`build_messages` iff the stored facts are non-empty after stripping:
the system message is the prompt plus the block exactly when
`strip (get_facts db u) ≠ ""`, and plus nothing otherwise. -/
theorem facts_block_iff (u : Int) (t : String) (db : DB) :
    (build_messages u t db).head?
        = some ("system", SYSTEM_PROMPT ++
            (if strip (get_facts db u) = "" then ""
             else "\n\nДолгая память (facts) о пользователе:\n"
               ++ strip (get_facts db u) ++ "\n"))
    ∧ ((∃ b, b ≠ "" ∧ (build_messages u t db).head?
          = some ("system", SYSTEM_PROMPT ++ b))
        ↔ strip (get_facts db u) ≠ "") := by
  have hA : (build_messages u t db).head?
      = some ("system", SYSTEM_PROMPT ++
          (if strip (get_facts db u) = "" then ""
           else "\n\nДолгая память (facts) о пользователе:\n"
             ++ strip (get_facts db u) ++ "\n")) := rfl
  refine ⟨hA, ?_, ?_⟩
  · rintro ⟨b, hb, hhead⟩ hfe
    rw [if_pos hfe] at hA
    rw [hA] at hhead
    have hpair := Option.some.inj hhead
    have hsnd := congrArg Prod.snd hpair
    exact hb (string_append_left_cancel hsnd).symm
  · intro hne
    refine ⟨"\n\nДолгая память (facts) о пользователе:\n"
        ++ strip (get_facts db u) ++ "\n", ?_, ?_⟩
    · intro h0
      have hlen := congrArg String.length h0
      rw [String.length_append, String.length_append] at hlen
      have h1 : ("\n" : String).length = 1 := rfl
      have h2 : ("" : String).length = 0 := rfl
      rw [h1, h2] at hlen
      omega
    · rw [if_neg hne] at hA
      exact hA

/-- C2: the fact extractor is invoked in a turn iff the number of recent
history records for the user — counted after the two messages of the turn
are persisted and the history trimmed — is an exact multiple of 6. -/
theorem extractor_invoked_iff (c : List (String × String) → String)
    (e : List (String × String) → Option String)
    (u : Int) (raw ts1 ts2 : String) (db : DB) :
    (handle_message c e u raw ts1 ts2 db).2 = true ↔
      6 ∣ (get_recent_messages u SHORT_HISTORY_LIMIT
        (trim_history u SHORT_HISTORY_LIMIT
          (add_message u "assistant"
            (ask_ai c u (strip raw) (add_message u "user" (strip raw) ts1 db))
            ts2 (add_message u "user" (strip raw) ts1 db)))).length := by
  rw [Nat.dvd_iff_mod_eq_zero]
  simp only [handle_message]
  split
  next hc =>
    constructor
    · intro _
      exact beq_iff_eq.mp hc
    · intro _
      split <;> rfl
  next hc =>
    constructor
    · intro hx
      exact absurd hx (by simp)
    · intro hmod
      exact absurd (beq_iff_eq.mpr hmod) hc

/-- C3: when the completion call inside `update_facts_with_ai` raises
(the oracle answers `none` on the extraction prompt this turn builds),
the turn still returns normally — `handle_message` is total — and the
stored facts are unchanged (they equal their value both before the turn
and before the extractor step, since persisting and trimming do not touch
the facts table). -/
theorem extractor_failure_preserves_facts
    (c : List (String × String) → String)
    (e : List (String × String) → Option String)
    (u : Int) (raw ts1 ts2 : String) (db : DB)
    (hfail : e [("system", "Ты аккуратный извлекатель фактов."),
      ("user", extractorUserMessage (get_facts db u) (strip raw)
        (ask_ai c u (strip raw)
          (add_message u "user" (strip raw) ts1 db)))] = none) :
    (handle_message c e u raw ts1 ts2 db).1.facts = db.facts
    ∧ get_facts (handle_message c e u raw ts1 ts2 db).1 u
        = get_facts db u := by
  simp only [handle_message, update_facts_with_ai]
  have hfix : get_facts (trim_history u SHORT_HISTORY_LIMIT
      (add_message u "assistant" (ask_ai c u (strip raw)
        (add_message u "user" (strip raw) ts1 db)) ts2
        (add_message u "user" (strip raw) ts1 db))) u = get_facts db u :=
    get_facts_congr rfl u
  rw [hfix, hfail]
  split <;> exact ⟨rfl, rfl⟩

theorem extractor_failure_preserves_facts_witness :
    ((fun _ : List (String × String) => (none : Option String))
      [("system", "Ты аккуратный извлекатель фактов."),
       ("user", extractorUserMessage (get_facts dbFourFacts 1) (strip "привет")
         (ask_ai (fun _ => "ок") 1 (strip "привет")
           (add_message 1 "user" (strip "привет") "t5" dbFourFacts)))] = none)
    ∧ ((handle_message (fun _ => "ок") (fun _ => none) 1 "привет" "t5" "t6"
          dbFourFacts).1.facts = dbFourFacts.facts
    ∧ get_facts (handle_message (fun _ => "ок") (fun _ => none) 1 "привет"
          "t5" "t6" dbFourFacts).1 1 = get_facts dbFourFacts 1) :=
  ⟨rfl, extractor_failure_preserves_facts (fun _ => "ок") (fun _ => none)
    1 "привет" "t5" "t6" dbFourFacts rfl⟩

/-- C1 (counterexample): a user with exactly 6 stored messages does NOT
get a Fact Extractor invocation on the next turn — the turn persists two
further messages, so the recent-history count is 8, not a multiple of 6. -/
theorem six_messages_next_turn_no_invocation :
    (userMsgs dbSix 1).length = 6
    ∧ (handle_message (fun _ => "ок") (fun _ => some "f") 1 "привет"
        "t7" "t8" dbSix).2 = false := by decide

/-- C1 (amended): each completed turn stores two messages (inbound and
outbound), so the extractor fires on the turn whose post-trim count is a
multiple of 6: a user with exactly 4 stored messages triggers exactly one
invocation on the next turn (count reaches 6); a user with exactly 6
stored messages triggers none on the next two turns (counts 8 and 10) and
the next invocation happens on the third turn, which brings the count
to 12. -/
theorem extractor_cadence_amended
    (c1 c2 c3 : List (String × String) → String)
    (e1 e2 e3 : List (String × String) → Option String)
    (u : Int) (r1 r2 r3 ta tb tc td te tf : String) (db : DB) (h : WF db) :
    ((userMsgs db u).length = 4 →
      (handle_message c1 e1 u r1 ta tb db).2 = true)
    ∧ ((userMsgs db u).length = 6 →
      (handle_message c1 e1 u r1 ta tb db).2 = false
      ∧ (handle_message c2 e2 u r2 tc td
          (handle_message c1 e1 u r1 ta tb db).1).2 = false
      ∧ (handle_message c3 e3 u r3 te tf
          (handle_message c2 e2 u r2 tc td
            (handle_message c1 e1 u r1 ta tb db).1).1).2 = true) := by
  obtain ⟨hl1, hb1, hw1⟩ := handle_message_spec c1 e1 u r1 ta tb db h
  constructor
  · intro h4
    rw [hb1, h4]
    decide
  · intro h6
    obtain ⟨hl2, hb2, hw2⟩ := handle_message_spec c2 e2 u r2 tc td _ hw1
    obtain ⟨hl3, hb3, hw3⟩ := handle_message_spec c3 e3 u r3 te tf _ hw2
    refine ⟨?_, ?_, ?_⟩
    · rw [hb1, h6]
      decide
    · rw [hb2, hl1, h6]
      decide
    · rw [hb3, hl2, hl1, h6]
      decide

theorem extractor_cadence_amended_witness :
    WF dbFour ∧ (userMsgs dbFour 1).length = 4
    ∧ (handle_message (fun _ => "ок") (fun _ => some "f") 1 "п1" "ta" "tb"
        dbFour).2 = true
    ∧ WF dbSix ∧ (userMsgs dbSix 1).length = 6
    ∧ ((handle_message (fun _ => "ок") (fun _ => some "f") 1 "п1" "ta" "tb"
        dbSix).2 = false
      ∧ (handle_message (fun _ => "ок") (fun _ => some "f") 1 "п2" "tc" "td"
          (handle_message (fun _ => "ок") (fun _ => some "f") 1 "п1" "ta" "tb"
            dbSix).1).2 = false
      ∧ (handle_message (fun _ => "ок") (fun _ => some "f") 1 "п3" "te" "tf"
          (handle_message (fun _ => "ок") (fun _ => some "f") 1 "п2" "tc" "td"
            (handle_message (fun _ => "ок") (fun _ => some "f") 1 "п1" "ta"
              "tb" dbSix).1).1).2 = true) :=
  ⟨by decide, by decide,
    (extractor_cadence_amended (fun _ => "ок") (fun _ => "ок") (fun _ => "ок")
      (fun _ => some "f") (fun _ => some "f") (fun _ => some "f")
      1 "п1" "п2" "п3" "ta" "tb" "tc" "td" "te" "tf" dbFour (by decide)).1
      (by decide),
    by decide, by decide,
    (extractor_cadence_amended (fun _ => "ок") (fun _ => "ок") (fun _ => "ок")
      (fun _ => some "f") (fun _ => some "f") (fun _ => some "f")
      1 "п1" "п2" "п3" "ta" "tb" "tc" "td" "te" "tf" dbSix (by decide)).2
      (by decide)⟩

/-- C7: starting from empty facts, `remember("любит кофе")` stores
`"любит кофе"`; a following `remember("играет гитару")` stores
`"любит кофе\nиграет гитару"`; in general `remember` creates the facts
from the stripped text when they are absent, and otherwise appends the
stripped text as a new line to the (stripped) existing facts. -/
theorem remember_spec (u : Int) (db : DB) (h : get_facts db u = "") :
    get_facts (remember u "/remember любит кофе" db) u = "любит кофе"
    ∧ get_facts (remember u "/remember играет гитару"
        (remember u "/remember любит кофе" db)) u
      = "любит кофе\nиграет гитару"
    ∧ (∀ (db' : DB) (raw : String),
        get_facts db' u = "" →
        strip (replaceFirst raw "/remember" "") ≠ "" →
        get_facts (remember u raw db') u
          = strip (replaceFirst raw "/remember" ""))
    ∧ (∀ (db' : DB) (raw : String),
        strip (get_facts db' u) ≠ "" →
        strip (replaceFirst raw "/remember" "") ≠ "" →
        get_facts (remember u raw db') u
          = strip (get_facts db' u) ++ "\n"
            ++ strip (replaceFirst raw "/remember" "")) := by
  have hse : strip ("" : String) = "" := rfl
  have hcreate : ∀ (db' : DB) (raw : String),
      get_facts db' u = "" →
      strip (replaceFirst raw "/remember" "") ≠ "" →
      get_facts (remember u raw db') u
        = strip (replaceFirst raw "/remember" "") := by
    intro db' raw h0 htext
    rw [remember_eval, if_neg htext, h0, hse, if_pos rfl]
    exact get_facts_set_facts_self u _ db'
  have happend : ∀ (db' : DB) (raw : String),
      strip (get_facts db' u) ≠ "" →
      strip (replaceFirst raw "/remember" "") ≠ "" →
      get_facts (remember u raw db') u
        = strip (get_facts db' u) ++ "\n"
          ++ strip (replaceFirst raw "/remember" "") := by
    intro db' raw hcur htext
    rw [remember_eval, if_neg htext, if_neg hcur, get_facts_set_facts_self]
    exact strip_append_newline _ _ (strip_idem _) (strip_idem _) hcur htext
  have h1 : get_facts (remember u "/remember любит кофе" db) u
      = "любит кофе" := by
    rw [hcreate db "/remember любит кофе" h (by decide)]
    decide
  have h2 : get_facts (remember u "/remember играет гитару"
      (remember u "/remember любит кофе" db)) u
      = "любит кофе\nиграет гитару" := by
    rw [happend (remember u "/remember любит кофе" db)
      "/remember играет гитару" (by rw [h1]; decide) (by decide), h1]
    decide
  exact ⟨h1, h2, hcreate, happend⟩

theorem remember_spec_witness :
    get_facts dbEmpty 1 = ""
    ∧ get_facts (remember 1 "/remember любит кофе" dbEmpty) 1 = "любит кофе"
    ∧ get_facts (remember 1 "/remember играет гитару"
        (remember 1 "/remember любит кофе" dbEmpty)) 1
      = "любит кофе\nиграет гитару" :=
  ⟨rfl, (remember_spec 1 dbEmpty rfl).1, (remember_spec 1 dbEmpty rfl).2.1⟩

end Dusha
